import Mathlib

/-!
Shallow embedding of the trigram fuzzy-search service (trigrams.py): the
tokenizer, the retrying statement executor run_statement, and the search
scoring pipeline of do_search, together with proofs of the specification
claims. Strings are modelled as lists of characters with ASCII semantics
for lowercasing and for the character class of the normalizing regex.
-/

namespace Trigrams

/-- ASCII model of the lowercasing done by the Python expression s.lower():
uppercase letters (code points 65 to 90) are shifted by 32 into the lowercase
range, every other character is kept unchanged. -/
def lowerChar (c : Char) : Char :=
  if 65 ≤ c.toNat ∧ c.toNat ≤ 90 then Char.ofNat (c.toNat + 32) else c

/-- Characters kept by the normalizing substitution: the regex pattern
replaces every run of characters matching the class of non-word characters
plus underscore, so the characters kept are exactly the alphanumeric ones. -/
def isWordChar (c : Char) : Bool := c.isAlphanum

/-- The substitution of the pattern of runs of non-word characters by a single
space, as performed by re.sub in tokenize: each maximal run of non
alphanumeric characters becomes one space. The flag inRun records whether the
previous character belonged to such a run. -/
def collapseRuns (inRun : Bool) : List Char → List Char
  | [] => []
  | c :: cs =>
    if isWordChar c then c :: collapseRuns false cs
    else if inRun then collapseRuns true cs
    else ' ' :: collapseRuns true cs

/-- Normalization applied by tokenize before n-gram extraction: lowercase the
string, then collapse every run of non alphanumeric characters to one space. -/
def normalize (s : List Char) : List Char :=
  collapseRuns false (s.map lowerChar)

/-- All n-grams of s in extraction order, one per start offset: the list
comprehension that slices s at offsets 0 through len(s) - n. -/
def ngramsList (s : List Char) (n : Nat) : List (List Char) :=
  (List.range (s.length + 1 - n)).map (fun i => (s.drop i).take n)

/-- Canonical result of get_ngrams. In the source the comprehension is passed
through set and back to list, so only the set of elements is determined; dedup
fixes one representative order for the executable pipeline. -/
def get_ngrams (s : List Char) (n : Nat) : List (List Char) :=
  (ngramsList s n).dedup

/-- Relational model of the Python conversion list(set(xs)): any duplicate
free list holding exactly the elements of xs is an admissible result, because
the iteration order of a Python set is unspecified (it depends on the
per-process string hash randomization). -/
def pySetList (xs ys : List (List Char)) : Prop :=
  ys.Nodup ∧ (∀ t ∈ ys, t ∈ xs) ∧ (∀ t ∈ xs, t ∈ ys)

instance (xs ys : List (List Char)) : Decidable (pySetList xs ys) :=
  inferInstanceAs (Decidable (_ ∧ _ ∧ _))

/-- Admissible results of get_ngrams for a given input string. -/
def isGetNgrams (s : List Char) (n : Nat) (l : List (List Char)) : Prop :=
  pySetList (ngramsList s n) l

instance (s : List Char) (n : Nat) (l : List (List Char)) :
    Decidable (isGetNgrams s n l) :=
  inferInstanceAs (Decidable (pySetList _ _))

/-- Canonical tokenize: normalize, then take the distinct trigrams. The Python
function copies the get_ngrams list element by element into its result. -/
def tokenize (s : List Char) : List (List Char) :=
  get_ngrams (normalize s) 3

/-- Admissible results of tokenize, with the order of the transient list left
unspecified exactly as the conversion through a set leaves it. -/
def isTokenize (s : List Char) (l : List (List Char)) : Prop :=
  isGetNgrams (normalize s) 3 l

instance (s : List Char) (l : List (List Char)) : Decidable (isTokenize s l) :=
  inferInstanceAs (Decidable (isGetNgrams _ _ _))

/-- Helper for extractionOrder: drop every element already seen, keeping first
occurrences in order. -/
def firstDedupAux (seen : List (List Char)) : List (List Char) → List (List Char)
  | [] => []
  | a :: as =>
    if a ∈ seen then firstDedupAux seen as
    else a :: firstDedupAux (a :: seen) as

/-- The trigrams of a normalized string listed in extraction order with later
duplicates dropped: the insertion order a sequence representation would have
if deduplication kept first occurrences. -/
def extractionOrder (s : List Char) : List (List Char) :=
  firstDedupAux [] (ngramsList (normalize s) 3)

/-- Outcome of one attempted transaction against the store, as classified by
the except clauses of run_statement. -/
inductive TxnOutcome where
  | ok
  | serial
  | oper
  | uniq
  | pg
deriving DecidableEq, Repr

/-- One sleep performed by run_statement: either the jittered backoff taken
after a serialization failure on a given attempt, or a fixed five second
delay taken after any other operational or unclassified store error. -/
inductive Sleep where
  | backoff (attempt : Nat) (seconds : ℚ)
  | fixed (seconds : ℚ)
deriving DecidableEq, Repr

/-- The retry loop of run_statement, entered at loop index retry with the
given number of iterations left. The function store gives each attempt its
outcome, jitter the value the random number generator would return on that
attempt, and rows the result set a successful read would produce. Returned
are the value run_statement returns (none models the Python None, which is
also what falling off the loop yields), the number of attempts made, and the
list of sleeps performed. A uniqueness violation is logged without sleeping
and the loop moves on to its next iteration. -/
def run_statementFrom {α : Type} (store : Nat → TxnOutcome) (rows : α)
    (jitter : Nat → ℚ) (has_result use_aost : Bool) :
    Nat → Nat → Option α × Nat × List Sleep
  | _, 0 => (none, 0, [])
  | retry, fuel + 1 =>
    match store retry with
    | TxnOutcome.ok =>
        (if use_aost || has_result then some rows else none, 1, [])
    | TxnOutcome.serial =>
        let d := (2 ^ retry : ℚ) * (1 / 10) * (jitter retry + 1 / 2)
        let r := run_statementFrom store rows jitter has_result use_aost (retry + 1) fuel
        (r.1, r.2.1 + 1, Sleep.backoff retry d :: r.2.2)
    | TxnOutcome.oper =>
        let r := run_statementFrom store rows jitter has_result use_aost (retry + 1) fuel
        (r.1, r.2.1 + 1, Sleep.fixed 5 :: r.2.2)
    | TxnOutcome.uniq =>
        let r := run_statementFrom store rows jitter has_result use_aost (retry + 1) fuel
        (r.1, r.2.1 + 1, r.2.2)
    | TxnOutcome.pg =>
        let r := run_statementFrom store rows jitter has_result use_aost (retry + 1) fuel
        (r.1, r.2.1 + 1, Sleep.fixed 5 :: r.2.2)

/-- The executor run_statement: the loop for retry in range(1, max_retries + 1)
around one statement, with the Python defaults has_result = False and
use_aost = False made explicit. -/
def run_statement {α : Type} (store : Nat → TxnOutcome) (rows : α)
    (jitter : Nat → ℚ) (has_result use_aost : Bool) (max_retries : Nat) :
    Option α × Nat × List Sleep :=
  run_statementFrom store rows jitter has_result use_aost 1 max_retries

/-- Classification of an individual sleep taken by the retry loop: either the
jittered exponential backoff recorded after a serialization failure, with its
value bounded as the spec states, or the fixed five second delay. -/
def sleepOk (store : Nat → TxnOutcome) (jitter : Nat → ℚ) (e : Sleep) : Prop :=
  (∃ n, store n = TxnOutcome.serial ∧
     e = Sleep.backoff n ((2 ^ n : ℚ) * (1 / 10) * (jitter n + 1 / 2)) ∧
     (2 ^ n : ℚ) * (1 / 20) ≤ (2 ^ n : ℚ) * (1 / 10) * (jitter n + 1 / 2) ∧
     (2 ^ n : ℚ) * (1 / 10) * (jitter n + 1 / 2) ≤ (2 ^ n : ℚ) * (3 / 20)) ∨
  e = Sleep.fixed 5

/-- One row of the teams table: the stable identifier, the display name and
the stored trigram array written by the indexer. -/
structure TeamRow where
  id : Nat
  name : List Char
  grams : List (List Char)
deriving DecidableEq, Repr

/-- Candidate filter of the qbool common table expression: the rows of teams
whose grams array overlaps the query ngrams array. -/
def qbool (teams : List TeamRow) (ng : List (List Char)) : List TeamRow :=
  teams.filter (fun r => decide (∃ t ∈ r.grams, t ∈ ng))

/-- Length imbalance penalty of the qbool projection: one plus the absolute
difference of the two array lengths. -/
def delta (ng : List (List Char)) (r : TeamRow) : Nat :=
  1 + ((r.grams.length : Int) - (ng.length : Int)).natAbs

/-- Distinct overlap count n of the qscore common table expression: the
INTERSECT of the unnested grams and ngrams arrays keyed by one id, counted,
is the cardinality of the intersection of the two element sets. -/
def overlapCount (ng : List (List Char)) (r : TeamRow) : Nat :=
  (r.grams.toFinset ∩ ng.toFinset).card

/-- Raw score of the final SELECT, 100 times n over delta; division of
integers produces an exact decimal in the backing database, modelled as a
rational. -/
def rawScore (ng : List (List Char)) (r : TeamRow) : ℚ :=
  100 * (overlapCount ng r : ℚ) / (delta ng r : ℚ)

/-- Displayed score: the raw score of a row divided by the length of the
query ngrams list, as computed per row in the Python loop of do_search. -/
def normScore (ng : List (List Char)) (r : TeamRow) : ℚ :=
  rawScore ng r / (ng.length : ℚ)

/-- Row order produced by ordering on score descending: the second row scores
no more than the first. -/
def scoreDesc (ng : List (List Char)) (a b : TeamRow) : Prop :=
  rawScore ng b ≤ rawScore ng a

instance (ng : List (List Char)) : DecidableRel (scoreDesc ng) :=
  fun _ _ => inferInstanceAs (Decidable (_ ≤ _))

instance (ng : List (List Char)) : IsTotal TeamRow (scoreDesc ng) :=
  ⟨fun a b => le_total (rawScore ng b) (rawScore ng a)⟩

instance (ng : List (List Char)) : IsTrans TeamRow (scoreDesc ng) :=
  ⟨fun _ _ _ h1 h2 => le_trans h2 h1⟩

/-- Sorted and truncated candidate rows: ORDER BY score DESC LIMIT max_rows,
with insertion sort fixing the order among tied scores. -/
def topRows (teams : List TeamRow) (ng : List (List Char)) (limit : Nat) :
    List TeamRow :=
  (List.insertionSort (scoreDesc ng) (qbool teams ng)).take limit

/-- One entry of the JSON array returned by do_search: primary key, name and
the normalized score (its four decimal rendering is not modelled). -/
structure SearchResult where
  pk : Nat
  name : List Char
  score : ℚ
deriving DecidableEq, Repr

/-- Formatting loop of do_search: each returned row becomes one result entry
carrying the normalized score. -/
def formatRows (ng : List (List Char)) (rows : List TeamRow) :
    List SearchResult :=
  rows.map (fun r => ⟨r.id, r.name, normScore ng r⟩)

/-- The do_search endpoint: tokenize the query, run the search statement
through run_statement with has_result set, and format the returned rows.
When run_statement has exhausted its retries it returns None, and the Python
loop over that None raises a TypeError, so no JSON response is produced: that
crash is modelled as none. -/
def do_search (store : Nat → TxnOutcome) (jitter : Nat → ℚ)
    (max_retries : Nat) (teams : List TeamRow) (q : List Char) (limit : Nat) :
    Option (List SearchResult) :=
  match (run_statement store (topRows teams (tokenize q) limit) jitter
      true false max_retries).1 with
  | some rows => some (formatRows (tokenize q) rows)
  | none => none

/-- Every character produced by collapseRuns is either the inserted space or a
word character coming from the input list. -/
theorem mem_collapseRuns (c : Char) (l : List Char) :
    ∀ b, c ∈ collapseRuns b l → c = ' ' ∨ (c ∈ l ∧ isWordChar c = true) := by
  induction l with
  | nil => intro b h; simp [collapseRuns] at h
  | cons a as ih =>
    intro b h
    unfold collapseRuns at h
    by_cases hw : isWordChar a
    · rw [if_pos hw] at h
      rcases List.mem_cons.mp h with h1 | h2
      · subst h1; exact Or.inr ⟨List.mem_cons_self _ _, hw⟩
      · rcases ih false h2 with h3 | ⟨h4, h5⟩
        · exact Or.inl h3
        · exact Or.inr ⟨List.mem_cons_of_mem a h4, h5⟩
    · rw [if_neg hw] at h
      by_cases hb : b
      · rw [if_pos hb] at h
        rcases ih true h with h3 | ⟨h4, h5⟩
        · exact Or.inl h3
        · exact Or.inr ⟨List.mem_cons_of_mem a h4, h5⟩
      · rw [if_neg hb] at h
        rcases List.mem_cons.mp h with h1 | h2
        · exact Or.inl h1
        · rcases ih true h2 with h3 | ⟨h4, h5⟩
          · exact Or.inl h3
          · exact Or.inr ⟨List.mem_cons_of_mem a h4, h5⟩

/-- Shifting a code point of the uppercase range by 32 lands outside the
uppercase range. -/
theorem ofNat_shift_not_upper :
    ∀ n : Nat, 65 ≤ n → n ≤ 90 → (Char.ofNat (n + 32)).isUpper = false := by
  intro n h1 h2
  interval_cases n <;> decide

/-- Comparison of 32 bit words agrees with comparison of their numeric values. -/
theorem uint32_le_iff {a b : UInt32} : a ≤ b ↔ a.toNat ≤ b.toNat := Iff.rfl

/-- The character class test of the uppercase range expressed on code points. -/
theorem isUpper_iff (c : Char) :
    c.isUpper = true ↔ (65 ≤ c.toNat ∧ c.toNat ≤ 90) := by
  simp only [Char.isUpper, ge_iff_le, Bool.and_eq_true, decide_eq_true_eq]
  exact Iff.and uint32_le_iff uint32_le_iff

/-- Lowercasing never produces an uppercase character. -/
theorem lowerChar_not_upper (c : Char) : (lowerChar c).isUpper = false := by
  unfold lowerChar
  by_cases h : 65 ≤ c.toNat ∧ c.toNat ≤ 90
  · rw [if_pos h]; exact ofNat_shift_not_upper c.toNat h.1 h.2
  · rw [if_neg h]
    exact Bool.eq_false_iff.mpr (fun ht => h ((isUpper_iff c).mp ht))

/-- Every n-gram in the extraction list has length exactly n. -/
theorem length_of_mem_ngramsList {s t : List Char} {n : Nat}
    (h : t ∈ ngramsList s n) : t.length = n := by
  unfold ngramsList at h
  rcases List.mem_map.mp h with ⟨i, hi, rfl⟩
  have hi2 : i < s.length + 1 - n := List.mem_range.mp hi
  rw [List.length_take, List.length_drop]
  omega

/-- Every character of an extracted n-gram is a character of the source. -/
theorem mem_of_mem_ngram {s t : List Char} {n : Nat} {c : Char}
    (ht : t ∈ ngramsList s n) (hc : c ∈ t) : c ∈ s := by
  unfold ngramsList at ht
  rcases List.mem_map.mp ht with ⟨i, _, rfl⟩
  exact (List.drop_sublist i s).subset ((List.take_sublist n _).subset hc)

/-- On a store that always reports a uniqueness violation every loop iteration
runs, none of them sleeps, and the call returns None. -/
theorem run_statementFrom_uniq {α : Type} (rows : α) (jitter : Nat → ℚ)
    (hr ua : Bool) :
    ∀ (fuel start : Nat),
      run_statementFrom (fun _ => TxnOutcome.uniq) rows jitter hr ua start fuel
        = (none, fuel, []) := by
  intro fuel
  induction fuel with
  | zero => intro start; rfl
  | succ n ih =>
    intro start
    unfold run_statementFrom
    simp only []
    rw [ih (start + 1)]

/-- C1 counterexample: with the default budget of four attempts and a store
that fails every attempt with a uniqueness violation, run_statement makes
four attempts, not one: the except clause only logs and the loop then moves
on to its next transaction attempt. -/
theorem run_statement_uniq_counterexample :
    (run_statement (fun _ => TxnOutcome.uniq) () (fun _ => 0) false false 4).2.1 = 4 ∧
    (run_statement (fun _ => TxnOutcome.uniq) () (fun _ => 0) false false 4).2.1 ≠ 1 := by
  refine ⟨by decide, by decide⟩

/-- C1 amended: on a store that always fails with a uniqueness violation,
run_statement makes max_retries attempts, performs no sleep at all, and
returns no result. -/
theorem run_statement_uniq (max_retries : Nat) {α : Type} (rows : α)
    (jitter : Nat → ℚ) (hr ua : Bool) :
    run_statement (fun _ => TxnOutcome.uniq) rows jitter hr ua max_retries
      = (none, max_retries, []) :=
  run_statementFrom_uniq rows jitter hr ua max_retries 1

/-- Bounds of the jittered backoff delay: with the jitter value in the unit
interval the delay lies between five and fifteen hundredths of 2 to the
attempt number. -/
theorem backoff_bounds (n : Nat) (j : ℚ) (h0 : 0 ≤ j) (h1 : j < 1) :
    (2 ^ n : ℚ) * (1 / 20) ≤ (2 ^ n : ℚ) * (1 / 10) * (j + 1 / 2) ∧
    (2 ^ n : ℚ) * (1 / 10) * (j + 1 / 2) ≤ (2 ^ n : ℚ) * (3 / 20) := by
  have hp : (0 : ℚ) < 2 ^ n := by positivity
  constructor <;> nlinarith [hp, mul_nonneg (le_of_lt hp) h0]

/-- The retry loop makes at most as many attempts as it has iterations left
and every sleep it takes is a correctly bounded backoff or the fixed delay. -/
theorem run_statementFrom_policy {α : Type} (store : Nat → TxnOutcome)
    (rows : α) (jitter : Nat → ℚ) (hr ua : Bool)
    (hj : ∀ n, 0 ≤ jitter n ∧ jitter n < 1) :
    ∀ (fuel start : Nat),
      (run_statementFrom store rows jitter hr ua start fuel).2.1 ≤ fuel ∧
      ∀ e ∈ (run_statementFrom store rows jitter hr ua start fuel).2.2,
        sleepOk store jitter e := by
  intro fuel
  induction fuel with
  | zero =>
    intro start
    exact ⟨Nat.le_refl 0, fun e he => absurd he (List.not_mem_nil e)⟩
  | succ n ih =>
    intro start
    unfold run_statementFrom
    rcases hstore : store start with _ | _ | _ | _ | _
    · simp only [hstore]
      refine ⟨by omega, fun e he => absurd he (List.not_mem_nil e)⟩
    · simp only [hstore]
      rcases ih (start + 1) with ⟨hc, hs⟩
      refine ⟨by omega, fun e he => ?_⟩
      rcases List.mem_cons.mp he with h1 | h2
      · subst h1
        rcases backoff_bounds start (jitter start) (hj start).1 (hj start).2
          with ⟨hb1, hb2⟩
        exact Or.inl ⟨start, hstore, rfl, hb1, hb2⟩
      · exact hs e h2
    · simp only [hstore]
      rcases ih (start + 1) with ⟨hc, hs⟩
      refine ⟨by omega, fun e he => ?_⟩
      rcases List.mem_cons.mp he with h1 | h2
      · subst h1; exact Or.inr rfl
      · exact hs e h2
    · simp only [hstore]
      rcases ih (start + 1) with ⟨hc, hs⟩
      exact ⟨by omega, fun e he => hs e he⟩
    · simp only [hstore]
      rcases ih (start + 1) with ⟨hc, hs⟩
      refine ⟨by omega, fun e he => ?_⟩
      rcases List.mem_cons.mp he with h1 | h2
      · subst h1; exact Or.inr rfl
      · exact hs e h2

/-- C6: run_statement makes at most max_retries attempts, and every sleep it
performs is either the jittered backoff of a serialization failure on attempt
n, equal to 2 to the n times one tenth times the jitter factor and lying
between 0.05 and 0.15 times 2 to the n, or the fixed five second delay taken
after any other operational or unclassified failure. -/
theorem run_statement_retry_policy {α : Type} (store : Nat → TxnOutcome)
    (rows : α) (jitter : Nat → ℚ) (hr ua : Bool) (max_retries : Nat)
    (hj : ∀ n, 0 ≤ jitter n ∧ jitter n < 1) :
    (run_statement store rows jitter hr ua max_retries).2.1 ≤ max_retries ∧
    ∀ e ∈ (run_statement store rows jitter hr ua max_retries).2.2,
      sleepOk store jitter e :=
  run_statementFrom_policy store rows jitter hr ua hj max_retries 1

/-- Witness for C6 with a store failing twice with serialization conflicts and
then succeeding, jitter fixed at one half, and the default budget of four. -/
theorem run_statement_retry_policy_witness :
    (∀ n : Nat, 0 ≤ (fun _ => (1 : ℚ) / 2) n ∧ (fun _ => (1 : ℚ) / 2) n < 1) ∧
    ((run_statement (fun n => if n < 3 then TxnOutcome.serial else TxnOutcome.ok)
        () (fun _ => (1 : ℚ) / 2) false false 4).2.1 ≤ 4 ∧
     ∀ e ∈ (run_statement (fun n => if n < 3 then TxnOutcome.serial else TxnOutcome.ok)
        () (fun _ => (1 : ℚ) / 2) false false 4).2.2,
       sleepOk (fun n => if n < 3 then TxnOutcome.serial else TxnOutcome.ok)
         (fun _ => (1 : ℚ) / 2) e) :=
  ⟨fun _ => ⟨by norm_num, by norm_num⟩,
   run_statement_retry_policy _ () _ false false 4
     (fun _ => ⟨by norm_num, by norm_num⟩)⟩

/-- The first component of the retry loop result is either None or the rows
value handed to a successful attempt. -/
theorem run_statementFrom_result {α : Type} (store : Nat → TxnOutcome)
    (rows : α) (jitter : Nat → ℚ) (hr ua : Bool) :
    ∀ (fuel start : Nat),
      (run_statementFrom store rows jitter hr ua start fuel).1 = none ∨
      (run_statementFrom store rows jitter hr ua start fuel).1 = some rows := by
  intro fuel
  induction fuel with
  | zero => intro start; exact Or.inl rfl
  | succ n ih =>
    intro start
    unfold run_statementFrom
    rcases store start with _ | _ | _ | _ | _
    · by_cases hu : (ua || hr)
      · rw [if_pos hu]; exact Or.inr rfl
      · rw [if_neg hu]; exact Or.inl rfl
    · exact ih (start + 1)
    · exact ih (start + 1)
    · exact ih (start + 1)
    · exact ih (start + 1)

/-- When no attempt succeeds the retry loop falls off its end and the call
returns None without raising anything. -/
theorem run_statementFrom_none {α : Type} (store : Nat → TxnOutcome)
    (rows : α) (jitter : Nat → ℚ) (hr ua : Bool)
    (h : ∀ n, store n ≠ TxnOutcome.ok) :
    ∀ (fuel start : Nat),
      (run_statementFrom store rows jitter hr ua start fuel).1 = none := by
  intro fuel
  induction fuel with
  | zero => intro start; rfl
  | succ n ih =>
    intro start
    unfold run_statementFrom
    rcases hstore : store start with _ | _ | _ | _ | _
    · exact absurd hstore (h start)
    · exact ih (start + 1)
    · exact ih (start + 1)
    · exact ih (start + 1)
    · exact ih (start + 1)

/-- An empty query ngrams array overlaps no stored grams array, so the
candidate filter returns no row. -/
theorem qbool_nil (teams : List TeamRow) : qbool teams [] = [] := by
  unfold qbool
  induction teams with
  | nil => rfl
  | cons r rs ih =>
    rw [List.filter_cons]
    simp only [List.not_mem_nil, exists_prop, and_false, exists_false]
    simp only [decide_eq_true_eq] at ih ⊢
    simp [ih]

/-- A first attempt that succeeds makes run_statement return its rows when
has_result is set. -/
theorem run_statement_first_ok {α : Type} (store : Nat → TxnOutcome)
    (rows : α) (jitter : Nat → ℚ) (max_retries : Nat)
    (h1 : store 1 = TxnOutcome.ok) (hmr : 1 ≤ max_retries) :
    (run_statement store rows jitter true false max_retries).1 = some rows := by
  obtain ⟨k, rfl⟩ : ∃ k, max_retries = k + 1 := ⟨max_retries - 1, by omega⟩
  unfold run_statement run_statementFrom
  rw [h1]
  rfl

/-- C2 counterexample: a store failing every attempt with a serialization
conflict exhausts the budget of four attempts; run_statement then returns
None, and do_search, far from tolerating the absence of a result, iterates
over None, raises a TypeError, and produces no response at all (modelled as
none). -/
theorem do_search_exhausted_counterexample :
    do_search (fun _ => TxnOutcome.serial) (fun _ => 0) 4 []
      ['a', 'b', 'c', 'd'] 5 = none := by
  decide

/-- C2 amended: when every attempt fails with a retryable outcome,
run_statement returns no result without raising a fault, but do_search does
not tolerate that absence: the loop over the missing result set raises a
TypeError and no response is produced. -/
theorem run_statement_exhausted_do_search {α : Type} (store : Nat → TxnOutcome)
    (rows : α) (jitter : Nat → ℚ) (hr ua : Bool) (max_retries : Nat)
    (teams : List TeamRow) (q : List Char) (limit : Nat)
    (h : ∀ n, store n = TxnOutcome.serial ∨ store n = TxnOutcome.oper ∨
      store n = TxnOutcome.pg) :
    (run_statement store rows jitter hr ua max_retries).1 = none ∧
    do_search store jitter max_retries teams q limit = none := by
  have hok : ∀ n, store n ≠ TxnOutcome.ok := by
    intro n hn
    rcases h n with h1 | h1 | h1 <;> rw [hn] at h1 <;> exact TxnOutcome.noConfusion h1
  constructor
  · exact run_statementFrom_none store rows jitter hr ua hok max_retries 1
  · unfold do_search run_statement
    rw [run_statementFrom_none store _ jitter true false hok max_retries 1]

/-- Witness for the amended C2: the always conflicting store with the default
budget of four attempts. -/
theorem run_statement_exhausted_do_search_witness :
    (∀ n : Nat, (fun _ => TxnOutcome.serial) n = TxnOutcome.serial ∨
       (fun _ => TxnOutcome.serial) n = TxnOutcome.oper ∨
       (fun _ => TxnOutcome.serial) n = TxnOutcome.pg) ∧
    ((run_statement (fun _ => TxnOutcome.serial) () (fun _ => 0) false false 4).1 = none ∧
     do_search (fun _ => TxnOutcome.serial) (fun _ => 0) 4 []
       ['a', 'b', 'c', 'd'] 5 = none) :=
  ⟨fun _ => Or.inl rfl,
   run_statement_exhausted_do_search (fun _ => TxnOutcome.serial) () (fun _ => 0)
     false false 4 [] ['a', 'b', 'c', 'd'] 5 (fun _ => Or.inl rfl)⟩

/-- C7: a query whose trigram set is empty returns an empty result list, not
an error, for any limit and any store contents, whenever the statement itself
executes. -/
theorem do_search_empty_query (store : Nat → TxnOutcome) (jitter : Nat → ℚ)
    (max_retries : Nat) (teams : List TeamRow) (q : List Char) (limit : Nat)
    (hq : tokenize q = []) (h1 : store 1 = TxnOutcome.ok)
    (hmr : 1 ≤ max_retries) :
    do_search store jitter max_retries teams q limit = some [] := by
  unfold do_search
  rw [hq, run_statement_first_ok store _ jitter max_retries h1 hmr]
  simp [topRows, qbool_nil, formatRows]

/-- Witness for C7 at a one character query, too short to tokenize. -/
theorem do_search_empty_query_witness :
    (tokenize ['a'] = [] ∧ (fun _ : Nat => TxnOutcome.ok) 1 = TxnOutcome.ok ∧
     1 ≤ 4) ∧
    do_search (fun _ => TxnOutcome.ok) (fun _ => 0) 4
      [⟨1, ['x'], [['a', 'b', 'c']]⟩] ['a'] 5 = some [] :=
  ⟨⟨by decide, rfl, by decide⟩,
   do_search_empty_query (fun _ => TxnOutcome.ok) (fun _ => 0) 4
     [⟨1, ['x'], [['a', 'b', 'c']]⟩] ['a'] 5 (by decide) rfl (by decide)⟩

/-- C5: for every query and limit, a successful search returns at most limit
results, the underlying row sequence is sorted by descending raw score with
ties in unspecified order, and the response is exactly the formatting of that
row sequence. -/
theorem do_search_limit_sorted (store : Nat → TxnOutcome) (jitter : Nat → ℚ)
    (max_retries : Nat) (teams : List TeamRow) (q : List Char) (limit : Nat)
    (res : List SearchResult) (_hl : 1 ≤ limit)
    (hres : do_search store jitter max_retries teams q limit = some res) :
    res.length ≤ limit ∧
    List.Sorted (scoreDesc (tokenize q)) (topRows teams (tokenize q) limit) ∧
    res = formatRows (tokenize q) (topRows teams (tokenize q) limit) := by
  have hsorted : List.Sorted (scoreDesc (tokenize q))
      (topRows teams (tokenize q) limit) := by
    unfold topRows
    exact List.Pairwise.sublist (List.take_sublist _ _)
      (List.sorted_insertionSort _ _)
  have hr2 : (run_statement store (topRows teams (tokenize q) limit) jitter
        true false max_retries).1 = none ∨
      (run_statement store (topRows teams (tokenize q) limit) jitter
        true false max_retries).1 = some (topRows teams (tokenize q) limit) :=
    run_statementFrom_result store _ jitter true false max_retries 1
  unfold do_search at hres
  rcases hr2 with hnone | hsome
  · rw [hnone] at hres
    exact Option.noConfusion hres
  · rw [hsome] at hres
    have h3 : formatRows (tokenize q) (topRows teams (tokenize q) limit) = res :=
      Option.some.inj hres
    subst h3
    refine ⟨?_, hsorted, rfl⟩
    unfold formatRows
    rw [List.length_map]
    unfold topRows
    rw [List.length_take]
    exact Nat.min_le_left _ _

/-- Witness for C5 at a two row store, a four character query and limit one. -/
theorem do_search_limit_sorted_witness :
    (1 ≤ 1 ∧
     do_search (fun _ => TxnOutcome.ok) (fun _ => 0) 4
       [⟨1, ['x'], [['a', 'b', 'c'], ['b', 'c', 'd']]⟩, ⟨2, ['y'], [['a', 'b', 'c']]⟩]
       ['a', 'b', 'c', 'd'] 1
       = some (formatRows (tokenize ['a', 'b', 'c', 'd'])
           (topRows [⟨1, ['x'], [['a', 'b', 'c'], ['b', 'c', 'd']]⟩, ⟨2, ['y'], [['a', 'b', 'c']]⟩]
             (tokenize ['a', 'b', 'c', 'd']) 1))) ∧
    ((formatRows (tokenize ['a', 'b', 'c', 'd'])
        (topRows [⟨1, ['x'], [['a', 'b', 'c'], ['b', 'c', 'd']]⟩, ⟨2, ['y'], [['a', 'b', 'c']]⟩]
          (tokenize ['a', 'b', 'c', 'd']) 1)).length ≤ 1 ∧
     List.Sorted (scoreDesc (tokenize ['a', 'b', 'c', 'd']))
       (topRows [⟨1, ['x'], [['a', 'b', 'c'], ['b', 'c', 'd']]⟩, ⟨2, ['y'], [['a', 'b', 'c']]⟩]
         (tokenize ['a', 'b', 'c', 'd']) 1) ∧
     formatRows (tokenize ['a', 'b', 'c', 'd'])
        (topRows [⟨1, ['x'], [['a', 'b', 'c'], ['b', 'c', 'd']]⟩, ⟨2, ['y'], [['a', 'b', 'c']]⟩]
          (tokenize ['a', 'b', 'c', 'd']) 1)
       = formatRows (tokenize ['a', 'b', 'c', 'd'])
          (topRows [⟨1, ['x'], [['a', 'b', 'c'], ['b', 'c', 'd']]⟩, ⟨2, ['y'], [['a', 'b', 'c']]⟩]
            (tokenize ['a', 'b', 'c', 'd']) 1)) :=
  ⟨⟨le_refl 1, rfl⟩,
   do_search_limit_sorted (fun _ => TxnOutcome.ok) (fun _ => 0) 4
     [⟨1, ['x'], [['a', 'b', 'c'], ['b', 'c', 'd']]⟩, ⟨2, ['y'], [['a', 'b', 'c']]⟩]
     ['a', 'b', 'c', 'd'] 1 _ (le_refl 1) rfl⟩

/-- C4: for every candidate row of a search with a duplicate free non-empty
query trigram set, the penalty equals one plus the absolute set size
difference, the raw score is 100 times the intersection cardinality over the
penalty, the displayed score is the raw score over the query set size, an
exactly matching stored set gives penalty one and raw score 100 times the
query set size, and that value is the maximum raw score attainable for the
candidate set size. -/
theorem candidate_score_formula (teams : List TeamRow) (ng : List (List Char))
    (limit : Nat) (r : TeamRow) (_hng : ng ≠ [])
    (_hmem : r ∈ topRows teams ng limit)
    (hgnd : r.grams.Nodup) (hqnd : ng.Nodup) :
    delta ng r
        = 1 + ((r.grams.toFinset.card : Int) - (ng.toFinset.card : Int)).natAbs ∧
    rawScore ng r
        = 100 * ((r.grams.toFinset ∩ ng.toFinset).card : ℚ) / (delta ng r : ℚ) ∧
    normScore ng r = rawScore ng r / (ng.toFinset.card : ℚ) ∧
    (r.grams.toFinset = ng.toFinset →
      delta ng r = 1 ∧ rawScore ng r = 100 * (ng.toFinset.card : ℚ)) ∧
    rawScore ng r ≤ 100 * (r.grams.toFinset.card : ℚ) := by
  have hgc : r.grams.toFinset.card = r.grams.length :=
    List.toFinset_card_of_nodup hgnd
  have hqc : ng.toFinset.card = ng.length := List.toFinset_card_of_nodup hqnd
  have hdn : 1 ≤ delta ng r := Nat.le_add_right 1 _
  have hd1 : (1 : ℚ) ≤ (delta ng r : ℚ) := by exact_mod_cast hdn
  refine ⟨?_, rfl, ?_, ?_, ?_⟩
  · unfold delta
    rw [hgc, hqc]
  · unfold normScore
    rw [hqc]
  · intro heq
    have hlen : r.grams.length = ng.length := by rw [← hgc, ← hqc, heq]
    have hd : delta ng r = 1 := by
      unfold delta
      rw [hlen]
      simp
    refine ⟨hd, ?_⟩
    unfold rawScore overlapCount
    rw [heq, Finset.inter_self, hd]
    norm_num
  · have hoc : (overlapCount ng r : ℚ) ≤ (r.grams.toFinset.card : ℚ) := by
      have hsub : (r.grams.toFinset ∩ ng.toFinset).card ≤ r.grams.toFinset.card :=
        Finset.card_le_card Finset.inter_subset_left
      exact_mod_cast hsub
    have hocn : (0 : ℚ) ≤ (overlapCount ng r : ℚ) := by positivity
    have h2 : rawScore ng r ≤ 100 * (overlapCount ng r : ℚ) := by
      unfold rawScore
      rw [div_le_iff₀ (lt_of_lt_of_le zero_lt_one hd1)]
      nlinarith [mul_nonneg (mul_nonneg (by norm_num : (0:ℚ) ≤ 100) hocn)
        (sub_nonneg.mpr hd1)]
    exact le_trans h2 (by nlinarith [hoc])

/-- Witness for C4 at a store holding one row whose trigram set equals the
query trigram set. -/
theorem candidate_score_formula_witness :
    ((([['a', 'b', 'c']] : List (List Char)) ≠ []) ∧
     ((⟨1, [], [['a', 'b', 'c']]⟩ : TeamRow) ∈
       topRows [⟨1, [], [['a', 'b', 'c']]⟩] [['a', 'b', 'c']] 1) ∧
     (⟨1, [], [['a', 'b', 'c']]⟩ : TeamRow).grams.Nodup ∧
     ([['a', 'b', 'c']] : List (List Char)).Nodup) ∧
    (delta [['a', 'b', 'c']] ⟨1, [], [['a', 'b', 'c']]⟩
        = 1 + (((⟨1, [], [['a', 'b', 'c']]⟩ : TeamRow).grams.toFinset.card : Int)
            - (([['a', 'b', 'c']] : List (List Char)).toFinset.card : Int)).natAbs ∧
     rawScore [['a', 'b', 'c']] ⟨1, [], [['a', 'b', 'c']]⟩
        = 100 * (((⟨1, [], [['a', 'b', 'c']]⟩ : TeamRow).grams.toFinset
            ∩ ([['a', 'b', 'c']] : List (List Char)).toFinset).card : ℚ)
          / (delta [['a', 'b', 'c']] ⟨1, [], [['a', 'b', 'c']]⟩ : ℚ) ∧
     normScore [['a', 'b', 'c']] ⟨1, [], [['a', 'b', 'c']]⟩
        = rawScore [['a', 'b', 'c']] ⟨1, [], [['a', 'b', 'c']]⟩
          / (([['a', 'b', 'c']] : List (List Char)).toFinset.card : ℚ) ∧
     ((⟨1, [], [['a', 'b', 'c']]⟩ : TeamRow).grams.toFinset
          = ([['a', 'b', 'c']] : List (List Char)).toFinset →
       delta [['a', 'b', 'c']] ⟨1, [], [['a', 'b', 'c']]⟩ = 1 ∧
       rawScore [['a', 'b', 'c']] ⟨1, [], [['a', 'b', 'c']]⟩
          = 100 * (([['a', 'b', 'c']] : List (List Char)).toFinset.card : ℚ)) ∧
     rawScore [['a', 'b', 'c']] ⟨1, [], [['a', 'b', 'c']]⟩
        ≤ 100 * ((⟨1, [], [['a', 'b', 'c']]⟩ : TeamRow).grams.toFinset.card : ℚ)) :=
  ⟨⟨by decide, by decide, by decide, by decide⟩,
   candidate_score_formula [⟨1, [], [['a', 'b', 'c']]⟩] [['a', 'b', 'c']] 1
     ⟨1, [], [['a', 'b', 'c']]⟩ (by decide) (by decide) (by decide) (by decide)⟩

/-- C8: for every input string whose normalized form has length less than 3,
tokenize returns an empty trigram set. -/
theorem tokenize_eq_nil_of_short (s : List Char)
    (h : (normalize s).length < 3) : tokenize s = [] := by
  unfold tokenize get_ngrams ngramsList
  have h3 : (normalize s).length + 1 - 3 = 0 := by omega
  rw [h3]
  rfl

/-- Witness for C8 at the concrete two character input. -/
theorem tokenize_eq_nil_of_short_witness :
    (normalize ['a', 'b']).length < 3 ∧ tokenize ['a', 'b'] = [] :=
  ⟨by decide, tokenize_eq_nil_of_short ['a', 'b'] (by decide)⟩

/-- C9: duplicate trigrams are collapsed, each distinct trigram appears
exactly once in the result of tokenize, and the input aaaa yields exactly the
single trigram aaa. -/
theorem tokenize_nodup_and_aaaa :
    (∀ s : List Char, (tokenize s).Nodup) ∧
    tokenize ['a', 'a', 'a', 'a'] = [['a', 'a', 'a']] :=
  ⟨fun _ => List.nodup_dedup _, by decide⟩

/-- C10: every element of tokenize has length exactly 3 and consists only of
lowercase-or-caseless alphanumeric characters and spaces; no uppercase letter,
underscore or other punctuation character survives normalization. -/
theorem tokenize_trigram_shape (s t : List Char) (h : t ∈ tokenize s) :
    t.length = 3 ∧
    ∀ c ∈ t, c = ' ' ∨ (c.isAlphanum = true ∧ c.isUpper = false) := by
  unfold tokenize get_ngrams at h
  have h2 : t ∈ ngramsList (normalize s) 3 := List.mem_dedup.mp h
  refine ⟨length_of_mem_ngramsList h2, ?_⟩
  intro c hc
  have h3 : c ∈ normalize s := mem_of_mem_ngram h2 hc
  unfold normalize at h3
  rcases mem_collapseRuns c _ false h3 with h4 | ⟨h5, h6⟩
  · exact Or.inl h4
  · rcases List.mem_map.mp h5 with ⟨c0, _, rfl⟩
    exact Or.inr ⟨h6, lowerChar_not_upper c0⟩

/-- Witness for C10 at a concrete input holding an uppercase letter and a
punctuation character. -/
theorem tokenize_trigram_shape_witness :
    (['a', 'b', ' '] ∈ tokenize ['A', 'b', '!']) ∧
    (['a', 'b', ' '].length = 3 ∧
     ∀ c ∈ ['a', 'b', ' '], c = ' ' ∨ (c.isAlphanum = true ∧ c.isUpper = false)) :=
  ⟨by decide, tokenize_trigram_shape ['A', 'b', '!'] ['a', 'b', ' '] (by decide)⟩

/-- C3 counterexample: the reversed list of the two distinct trigrams of abcd
is an admissible result of tokenize, because the conversion through an
unordered set constrains only the elements, yet it differs from the
extraction-order sequence. -/
theorem tokenize_order_counterexample :
    isTokenize ['a', 'b', 'c', 'd'] [['b', 'c', 'd'], ['a', 'b', 'c']] ∧
    extractionOrder ['a', 'b', 'c', 'd'] = [['a', 'b', 'c'], ['b', 'c', 'd']] ∧
    ([['b', 'c', 'd'], ['a', 'b', 'c']] : List (List Char)) ≠
      [['a', 'b', 'c'], ['b', 'c', 'd']] := by
  refine ⟨by decide, by decide, by decide⟩

/-- C3 amended: any admissible transient sequence representation of the
trigram set is a permutation of the distinct trigrams in extraction order; the
order itself is unspecified, only the set of elements is determined. -/
theorem isTokenize_perm (s : List Char) (l : List (List Char))
    (h : isTokenize s l) : List.Perm l (tokenize s) := by
  unfold isTokenize isGetNgrams pySetList at h
  rcases h with ⟨hnd, hsub, hsup⟩
  unfold tokenize get_ngrams
  refine (List.perm_ext_iff_of_nodup hnd (List.nodup_dedup _)).mpr ?_
  intro t
  rw [List.mem_dedup]
  exact ⟨fun ht => hsub t ht, fun ht => hsup t ht⟩

/-- Witness for the amended C3 at the concrete input abcd. -/
theorem isTokenize_perm_witness :
    isTokenize ['a', 'b', 'c', 'd'] [['b', 'c', 'd'], ['a', 'b', 'c']] ∧
    List.Perm [['b', 'c', 'd'], ['a', 'b', 'c']]
      (tokenize ['a', 'b', 'c', 'd']) :=
  ⟨by decide, isTokenize_perm ['a', 'b', 'c', 'd'] _ (by decide)⟩

end Trigrams
